import Mathlib

/-!
Verification of the message reconciliation and recipient-resolution core of
the ngx-chat repository, as a shallow embedding in Lean 4.

The embedding follows the TypeScript sources:
  * `libs/ngx-chat-shared/src/interface/message-store.ts` (class `MessageStore`)
  * `libs/matrix-adapter/src/service/matrix-message-service.ts`
    (`sendMessage`, `handleMatrixMessage`, `getOrCreateRoom`)
  * `MatrixContactListService.getOrCreateContactById`

JavaScript `Date` values are modelled by `Option Int`: `some t` is a valid
date whose `getTime()` is `t` (milliseconds), `none` is a missing `datetime`
or an invalid date (`getTime()` is `NaN`).  JavaScript truthiness of a
millisecond timestamp (`currentDateTime && newDateTime && ...`) is therefore
"is `some t` with `t ≠ 0`".  The JS `Map` is modelled by an association list
with get/has/set semantics.  Exceptions are modelled by explicit outcome
values; every embedded operation is a total Lean function.
-/

/-- Direction enum of `ngx-chat-shared` (`Direction.in` / `Direction.out`). -/
inductive Direction where
  | inbound
  | outbound
deriving DecidableEq, Repr

/-- Message delivery states used by the matrix adapter
(`MessageState.SENDING`, `SENT`, `RECIPIENT_RECEIVED`). -/
inductive MessageState where
  | SENDING
  | SENT
  | RECIPIENT_RECEIVED
deriving DecidableEq, Repr

/-- The `Message` value of `ngx-chat-shared` (fields used by the core).
`datetime` is `some t` for a valid `Date` with `getTime () = t`,
`none` for a missing or invalid date. -/
structure Message where
  id : String
  body : String
  datetime : Option Int
  direction : Direction
  state : MessageState
  fromJid : String
  delayed : Bool
  fromArchive : Bool
deriving DecidableEq, Repr

/-- Map lookup: first entry with the key, as JS `Map.get`. -/
def mapGet (m : List (String × Message)) (k : String) : Option Message :=
  (m.find? (fun p => p.1 == k)).map Prod.snd

/-- Map membership, as JS `Map.has`. -/
def mapHas (m : List (String × Message)) (k : String) : Bool :=
  m.any (fun p => p.1 == k)

/-- Map update, as JS `Map.set`: the new binding shadows or replaces any
previous binding of the key (we re-bind at the front and drop the old
entry, which is observationally the same for `get`/`has`). -/
def mapSet (m : List (String × Message)) (k : String) (v : Message) :
    List (String × Message) :=
  (k, v) :: m.filter (fun p => p.1 != k)

/-- The state of one `MessageStore`: the `messages` array, the
`messageIdToMessage` map, and the list of snapshots pushed into
`messagesSubject` so far by `emitMessages` (oldest first). -/
structure StoreState where
  messages : List Message
  messageIdToMessage : List (String × Message)
  emittedSnapshots : List (List Message)
deriving DecidableEq, Repr

/-- A freshly constructed `MessageStore`. -/
def emptyStore : StoreState :=
  { messages := [], messageIdToMessage := [], emittedSnapshots := [] }

/-- Truthiness of `datetime?.getTime()`: `undefined` and `NaN` (both `none`)
and the epoch value `0` are falsy. -/
def truthyTs : Option Int → Bool
  | some t => t != 0
  | none => false

/-- Numeric value of a timestamp (`0` for missing/invalid, only used where
truthiness has already been established or where any total choice works). -/
def tsVal : Option Int → Int
  | some t => t
  | none => 0

/-- JS comparison `a > b` on two `Date` values (via `valueOf`): false as
soon as either side is missing/`NaN`. -/
def jsDateGt : Option Int → Option Int → Bool
  | some a, some b => a > b
  | _, _ => false

/-- The comparison performed at one position of the backward insertion scan
of `addMessage`: `currentDateTime && newDateTime && currentDateTime <= newDateTime`. -/
def condIns (cur nm : Message) : Bool :=
  truthyTs cur.datetime && truthyTs nm.datetime &&
    tsVal cur.datetime ≤ tsVal nm.datetime

/-- The backward insertion scan (`for i = length-1 .. 0`): insert `nm`
directly after the last element satisfying `condIns`; `none` when no
element satisfies it (the loop ends with `inserted = false`). -/
def insertLoop : List Message → Message → Option (List Message)
  | [], _ => none
  | c :: rest, nm =>
    match insertLoop rest nm with
    | some rest2 => some (c :: rest2)
    | none => if condIns c nm then some (c :: nm :: rest) else none

/-- The full insertion step: scan result, or `unshift` at the front when the
scan found no insertion point. -/
def insertResult (msgs : List Message) (nm : Message) : List Message :=
  match insertLoop msgs nm with
  | some l => l
  | none => nm :: msgs

/-- The `emitMessages` private method: push a fresh copy of `messages` into
`messagesSubject`. -/
def emitMessages (st : StoreState) : StoreState :=
  { st with emittedSnapshots := st.emittedSnapshots ++ [st.messages] }

/-- The `MessageStore.addMessage` method.  The argument is `Option Message`
so that the `!message` guard (a `null`/`undefined` argument) is
representable; `!message.id` rejects the empty string. -/
def addMessage (st : StoreState) (message? : Option Message) : StoreState :=
  match message? with
  | none => st
  | some message =>
    if message.id = "" then st
    else
      -- `const newMessage = { ...message }`: a shallow copy, identical as a value
      let newMessage := message
      if mapHas st.messageIdToMessage newMessage.id then
        match st.messages.find? (fun m => m.id == newMessage.id) with
        | some existing =>
          if jsDateGt newMessage.datetime existing.datetime then
            let index := st.messages.indexOf existing
            if index < st.messages.length then
              emitMessages
                { st with
                  messages := st.messages.set index newMessage,
                  messageIdToMessage :=
                    mapSet st.messageIdToMessage newMessage.id newMessage }
            else st
          else st
        | none => st
      else
        emitMessages
          { st with
            messages := insertResult st.messages newMessage,
            messageIdToMessage :=
              mapSet st.messageIdToMessage newMessage.id newMessage }

/-- Run a sequence of `addMessage` calls against a fresh store. -/
def runStore (batch : List (Option Message)) : StoreState :=
  batch.foldl addMessage emptyStore

/-- Ascending-`datetime` sortedness of the stored sequence (adjacent pairs,
which for a transitive order is full sortedness). -/
def isSortedByDatetime : List Message → Bool
  | [] => true
  | [_] => true
  | a :: b :: rest =>
    (tsVal a.datetime ≤ tsVal b.datetime) && isSortedByDatetime (b :: rest)

/-- Consistency of one store state: pairwise distinct message ids, no empty
id, and the `messageIdToMessage` map in exact correspondence with the
`messages` array. -/
def storeInv (st : StoreState) : Prop :=
  st.messages.Pairwise (fun a b => a.id ≠ b.id) ∧
  (∀ m ∈ st.messages, m.id ≠ "") ∧
  (∀ p ∈ st.messageIdToMessage, p.2 ∈ st.messages ∧ p.2.id = p.1) ∧
  (∀ m ∈ st.messages, mapGet st.messageIdToMessage m.id = some m)

/-- Delivery sequence seen by a new subscriber of
`messages$ = messagesSubject.pipe(startWith([]))` where `messagesSubject`
is a `ReplaySubject` with buffer size 50: first the `startWith` value `[]`,
then the replay of the up-to-50 most recent snapshots (then live values). -/
def subscribeDeliveries (snapshots : List (List Message)) : List (List Message) :=
  [] :: snapshots.drop (snapshots.length - 50)

/-- Invariant of the emission stream: every snapshot ever emitted holds only
messages with a non-empty id, and the most recently emitted snapshot (when
one exists) is the current `messages` array. -/
def emissionInv (st : StoreState) : Prop :=
  (∀ snap ∈ st.emittedSnapshots, ∀ m ∈ snap, m.id ≠ "") ∧
  ((st.emittedSnapshots = [] ∧ st.messages = []) ∨
    st.emittedSnapshots.getLast? = some st.messages)

/-- Modelled from the spec: the `Contact` class of `ngx-chat-shared` is not
under `src/`; per the spec each Recipient owns exactly one `MessageStore`
created at Recipient construction.  `instanceId` models JS object identity:
each `new Contact(...)` yields a fresh instance owning a fresh store, so two
contacts are the same live instance (and share a store) iff their
`instanceId`s agree.  `bareJid` is the canonical bare identifier
(`jid.bare().toString()`). -/
structure Contact where
  bareJid : String
  name : String
  instanceId : Nat
deriving DecidableEq, Repr

/-- Shared state read and written by `MatrixContactListService`: the value of
`contactsSubject`, plus the fresh-identity supply modelling `new Contact`. -/
structure ContactWorld where
  contacts : List Contact
  nextInstance : Nat
deriving DecidableEq, Repr

/-- The synchronous prefix of `getOrCreateContactById` up to
`await this.matrixClient.getUser(...)`: look the canonical bare jid up in
the current `contactsSubject` value. -/
def resolveLookup (w : ContactWorld) (jidBare : String) : Option Contact :=
  w.contacts.find? (fun c => c.bareJid == jidBare)

/-- The continuation of `getOrCreateContactById` after the `await`, in the
not-found branch: construct a fresh `Contact` and publish
`[...currentContacts, contact]`, where `currentContacts` is the list that
was captured BEFORE the suspension point. -/
def resolveCreate (w : ContactWorld) (captured : List Contact)
    (jidBare nm : String) : Contact × ContactWorld :=
  let c : Contact := { bareJid := jidBare, name := nm, instanceId := w.nextInstance }
  (c, { contacts := captured ++ [c], nextInstance := w.nextInstance + 1 })

/-- `getOrCreateContactById` run without interleaving (the call suspends at
the `await` but nothing else touches `contactsSubject` meanwhile). -/
def getOrCreateContactById (w : ContactWorld) (jidBare nm : String) :
    Contact × ContactWorld :=
  match resolveLookup w jidBare with
  | some c => (c, w)
  | none => resolveCreate w w.contacts jidBare nm

/-- Two overlapping `getOrCreateContactById` calls for the same identifier
(e.g. one from the ingestion path, one from the send path), scheduled so
that both run their lookup before either resumes from its `await`: both
lookups read the same `contactsSubject` value, then call 1 resumes and
registers, then call 2 resumes — appending its fresh contact to the list it
captured before the `await`.  Returns (result of call 1, result of call 2,
final world). -/
def interleavedResolveTwice (w : ContactWorld) (jidBare n1 n2 : String) :
    Contact × Contact × ContactWorld :=
  match resolveLookup w jidBare with
  | some c => (c, c, w)
  | none =>
    let r1 := resolveCreate w w.contacts jidBare n1
    let r2 := resolveCreate r1.2 w.contacts jidBare n2
    (r1.1, r2.1, r2.2)

/-- Prefix test on character lists (`sub` is a prefix of `hay`). -/
def hasPrefixChars : List Char → List Char → Bool
  | _, [] => true
  | [], _ :: _ => false
  | a :: as, b :: bs => a == b && hasPrefixChars as bs

/-- Substring occurrence test on character lists. -/
def hasInfixChars : List Char → List Char → Bool
  | [], sub => hasPrefixChars [] sub
  | a :: t, sub => hasPrefixChars (a :: t) sub || hasInfixChars t sub

/-- JS `String.prototype.includes`. -/
def jsIncludes (hay sub : String) : Bool :=
  hasInfixChars hay.toList sub.toList

/-- The error thrown by the protocol client's send command. -/
structure SendErr where
  message : String
deriving DecidableEq, Repr

/-- Result of `this.client.sendTextMessage`: a server-assigned event id, or
a rejection. -/
inductive SendResult where
  | ok (eventId : String)
  | err (e : SendErr)
deriving DecidableEq, Repr

/-- How `sendMessage` terminates: resolving normally, or rejecting with the
given error message. -/
inductive SendOutcome where
  | returned
  | threw (msg : String)
deriving DecidableEq, Repr

/-- The check `sendError.message?.includes('encryption') ||
sendError.message?.includes('encrypted')` of `sendMessage`. -/
def isEncryptionError (e : SendErr) : Bool :=
  jsIncludes e.message "encryption" || jsIncludes e.message "encrypted"

/-- The optimistic outgoing message built by `sendMessage` on success
(server-assigned id, `state: SENT`). -/
def mkSentMessage (messageBody userId eventId : String) (now : Int) : Message :=
  { body := messageBody, datetime := some now, direction := .outbound,
    id := eventId, fromJid := userId, delayed := false, fromArchive := false,
    state := .SENT }

/-- The `encryptionFailedMessage` built in the inner catch of `sendMessage`
for encryption-related send errors. -/
def mkEncryptionFailedMessage (messageBody userId : String) (now : Int) : Message :=
  { body := "\u274c " ++ messageBody ++
      "\n\n\u26a0\ufe0f Message may not be delivered - room requires encryption",
    datetime := some now, direction := .outbound,
    id := "encryption-failed-" ++ toString now, fromJid := userId,
    delayed := false, fromArchive := false, state := .SENDING }

/-- The `failedMessage` built in the outer catch of `sendMessage`. -/
def mkFailedMessage (messageBody userId : String) (now : Int) : Message :=
  { body := "❌ Failed to send: " ++ messageBody, datetime := some now,
    direction := .outbound, id := "failed-" ++ toString now, fromJid := userId,
    delayed := false, fromArchive := false, state := .SENDING }

/-- The message inserted by `sendMessage` when the send command fails. -/
def sendFailureMessage (e : SendErr) (messageBody userId : String) (now : Int) : Message :=
  if isEncryptionError e then mkEncryptionFailedMessage messageBody userId now
  else mkFailedMessage messageBody userId now

/-- `MatrixMessageService.sendMessage`, given the outcome of the protocol
client's send command (`now` is `Date.now()` at the catch sites; the target
recipient's store is `store`).  On success the optimistic echo is inserted
and the promise resolves; on an encryption-related failure the inner catch
inserts `encryptionFailedMessage` and RETURNS; on any other failure the
outer catch inserts `failedMessage` and re-throws. -/
def sendMessageModel (store : StoreState) (messageBody userId : String)
    (now : Int) (res : SendResult) : StoreState × SendOutcome :=
  match res with
  | .ok eventId =>
    (addMessage store (some (mkSentMessage messageBody userId eventId now)),
      .returned)
  | .err e =>
    if isEncryptionError e then
      (addMessage store (some (mkEncryptionFailedMessage messageBody userId now)),
        .returned)
    else
      (addMessage store (some (mkFailedMessage messageBody userId now)),
        .threw e.message)

/-- A raw Matrix timeline/sync event as consumed by `handleMatrixMessage`.
Absent string fields are modelled as `""` (falsy, as in the JS guards);
`ts` is `event.getTs()` with `0` falsy. -/
structure MatrixEvent where
  eventType : String
  sender : String
  hasContent : Bool
  msgtype : String
  contentBody : String
  eventId : String
  ts : Int
  isDecryptionFailure : Bool
  failureReason : String
deriving DecidableEq, Repr

/-- Environment of one `handleMatrixMessage` call: whether
`this.client.getRoom(roomId)` found the room, the local user id, whether
`determineTargetRecipient` resolved a recipient, and the `fromHistory`
flag. -/
structure HandleEnv where
  roomFound : Bool
  localUserId : String
  recipientResolved : Bool
  fromHistory : Bool
deriving DecidableEq, Repr

/-- Observable outcome of one `handleMatrixMessage` call: which early
return was taken, or the message added to the resolved recipient's store
together with the signals fired (`messageReceivedSubject`,
`messageSentSubject`, `messageSubject`). -/
inductive HandleResult where
  | droppedNoRoom
  | droppedInvalid
  | droppedNoRecipient
  | droppedNoBody
  | skippedFreshOutgoing
  | added (m : Message) (receivedSignal sentSignal messageSignal : Bool)
deriving DecidableEq, Repr

/-- The user-facing text chosen for a decryption failure, from the
lowercased error string (the if/else-if chain of `handleMatrixMessage`). -/
def decryptionErrorMessage (errorStr : String) : String :=
  if jsIncludes errorStr "unknown_message_index" || jsIncludes errorStr "message index" then
    "🔐 Message sent before you joined this room"
  else if jsIncludes errorStr "missing_session" || jsIncludes errorStr "missing session" then
    "🔐 Missing encryption keys for this device"
  else if jsIncludes errorStr "unknown_sender_device" || jsIncludes errorStr "unknown device" then
    "🔐 Message from unknown device"
  else if jsIncludes errorStr "unsigned_sender_device" || jsIncludes errorStr "unverified device" then
    "🔐 Message from unverified device"
  else
    "🔐 Encrypted message (encryption disabled)"

/-- The `decryptionError` source string:
`event.decryptionFailureReason || event.getContent()?.['body'] || 'UNKNOWN_ERROR'`. -/
def decryptionErrorSource (ev : MatrixEvent) : String :=
  if ev.failureReason ≠ "" then ev.failureReason
  else if ev.contentBody ≠ "" then ev.contentBody
  else "UNKNOWN_ERROR"

/-- The placeholder `failureMessage` synthesized for an undecryptable
event: same id, timestamp and sender as the original event, body the
human-readable reason, `state: RECIPIENT_RECEIVED`. -/
def decryptionFailureMessage (env : HandleEnv) (ev : MatrixEvent) : Message :=
  { body := decryptionErrorMessage (decryptionErrorSource ev).toLower,
    direction := if ev.sender = env.localUserId then .outbound else .inbound,
    datetime := some ev.ts, state := .RECIPIENT_RECEIVED, id := ev.eventId,
    delayed := false, fromArchive := false, fromJid := ev.sender }

/-- Body extraction for a normal message: map `msgtype` to text, falling
back to `content['body']` or a bracketed placeholder. -/
def extractRawBody (ev : MatrixEvent) : String :=
  if ev.msgtype = "m.text" then ev.contentBody
  else if ev.msgtype = "m.image" then "[Image]"
  else if ev.msgtype = "m.file" then "[File]"
  else if ev.contentBody ≠ "" then ev.contentBody
  else "[Unsupported message type]"

/-- Body normalization: normalize Windows and Mac line endings, trim. -/
def normalizeBody (s : String) : String :=
  ((s.replace "\r\n" "\n").replace "\r" "\n").trim

/-- The normalized message built for a plain (decryptable) event. -/
def normalMessage (env : HandleEnv) (ev : MatrixEvent) : Message :=
  { body := normalizeBody (extractRawBody ev),
    direction := if ev.sender = env.localUserId then .outbound else .inbound,
    datetime := some ev.ts, state := .RECIPIENT_RECEIVED, id := ev.eventId,
    delayed := false, fromArchive := false, fromJid := ev.sender }

/-- `MatrixMessageService.handleMatrixMessage`: filter invalid events,
convert undecryptable events into placeholder messages, extract and
normalize the body, resolve the recipient, suppress fresh outgoing events,
and route the message into the store via `addMessage`, firing the
appropriate subjects. -/
def handleMatrixMessage (env : HandleEnv) (ev : MatrixEvent) (store : StoreState) :
    StoreState × HandleResult :=
  if !env.roomFound then (store, .droppedNoRoom)
  else if ev.sender = "" || !ev.hasContent || ev.eventId = "" || ev.ts = 0 then
    (store, .droppedInvalid)
  else if ev.eventType = "m.room.encrypted" && ev.isDecryptionFailure then
    if env.recipientResolved then
      (addMessage store (some (decryptionFailureMessage env ev)),
        .added (decryptionFailureMessage env ev) true false true)
    else (store, .droppedNoRecipient)
  else
    let message := normalMessage env ev
    if message.body = "" then (store, .droppedNoBody)
    else if !env.recipientResolved then (store, .droppedNoRecipient)
    else if message.direction = .outbound && !env.fromHistory then
      (store, .skippedFreshOutgoing)
    else
      (addMessage store (some message),
        .added message (message.direction = .inbound)
          (message.direction = .outbound && env.fromHistory) true)

/-- Sample message: id `"a"`, timestamp 1. -/
def mA1 : Message :=
  { id := "a", body := "hi", datetime := some 1, direction := .inbound,
    state := .SENT, fromJid := "u", delayed := false, fromArchive := false }

/-- Sample message: id `"b"`, timestamp 2. -/
def mB2 : Message := { mA1 with id := "b", datetime := some 2 }

/-- Sample update: id `"a"` again, strictly newer timestamp 3. -/
def mA3 : Message := { mA1 with body := "edited", datetime := some 3 }

/-- Sample message with the falsy epoch timestamp 0. -/
def mZ0 : Message := { mA1 with id := "z", datetime := some 0 }

/-- Sample message with an empty (falsy) id. -/
def mNoId : Message := { mA1 with id := "" }

/-- Sample store holding `mA1` then `mB2` (both inserted fresh). -/
def stW : StoreState := runStore [some mA1, some mB2]

/-- Sample environment for `handleMatrixMessage`: room found, recipient
resolved, fresh event. -/
def envW : HandleEnv :=
  { roomFound := true, localUserId := "@me:hs", recipientResolved := true,
    fromHistory := false }

/-- Sample undecryptable encrypted event. -/
def evW : MatrixEvent :=
  { eventType := "m.room.encrypted", sender := "@bob:hs", hasContent := true,
    msgtype := "", contentBody := "", eventId := "evt1", ts := 777,
    isDecryptionFailure := true, failureReason := "MISSING_SESSION" }

instance (st : StoreState) : Decidable (storeInv st) := by
  unfold storeInv; infer_instance

theorem mapGet_set_self (m : List (String × Message)) (k : String) (v : Message) :
    mapGet (mapSet m k v) k = some v := by
  simp [mapGet, mapSet, List.find?_cons]

theorem mapGet_set_ne (m : List (String × Message)) (k : String) (v : Message)
    (k' : String) (h : k' ≠ k) : mapGet (mapSet m k v) k' = mapGet m k' := by
  unfold mapGet mapSet
  rw [List.find?_cons_of_neg _ (by simp [Ne.symm h]), List.find?_filter]
  have hfun : (fun a : String × Message => ((a.1 != k) ∧ (a.1 == k') : Bool))
      = (fun p : String × Message => p.1 == k') := by
    funext a
    by_cases ha : a.1 = k'
    · simp [ha, h]
    · simp [ha]
  rw [hfun]

theorem mem_mapSet (m : List (String × Message)) (k : String) (v : Message)
    (p : String × Message) :
    p ∈ mapSet m k v ↔ p = (k, v) ∨ (p ∈ m ∧ p.1 ≠ k) := by
  simp [mapSet, List.mem_filter, and_comm]

theorem mapGet_isSome_of_mem (m : List (String × Message)) (p : String × Message)
    (h : p ∈ m) : mapGet m p.1 ≠ none := by
  unfold mapGet
  have : ∃ q, q ∈ m ∧ (q.1 == p.1) = true := ⟨p, h, by simp⟩
  rcases List.find?_isSome.mpr this |> Option.isSome_iff_exists.mp with ⟨q, hq⟩
  simp [hq]

theorem mapGet_mem (m : List (String × Message)) (k : String) (v : Message)
    (h : mapGet m k = some v) : (k, v) ∈ m := by
  unfold mapGet at h
  cases hf : m.find? (fun p => p.1 == k) with
  | none => simp [hf] at h
  | some q =>
    simp only [hf, Option.map_some'] at h
    have hqm := List.mem_of_find?_eq_some hf
    have hqk := List.find?_some hf
    simp only [beq_iff_eq] at hqk
    have : q = (k, v) := by
      cases q with
      | mk q1 q2 => simp_all
    rwa [this] at hqm

theorem insertLoop_perm (l : List Message) (nm : Message) (l2 : List Message)
    (h : insertLoop l nm = some l2) : l2.Perm (nm :: l) := by
  induction l generalizing l2 with
  | nil => simp [insertLoop] at h
  | cons c rest ih =>
    rw [insertLoop] at h
    cases h2 : insertLoop rest nm with
    | some rest2 =>
      rw [h2] at h
      cases h
      exact (List.Perm.cons c (ih rest2 h2)).trans (List.Perm.swap nm c rest)
    | none =>
      rw [h2] at h
      by_cases hc : condIns c nm = true
      · simp [hc] at h
        cases h
        exact List.Perm.swap nm c rest
      · simp [hc] at h

theorem insertResult_perm (l : List Message) (nm : Message) :
    (insertResult l nm).Perm (nm :: l) := by
  unfold insertResult
  cases h : insertLoop l nm with
  | none => exact List.Perm.refl _
  | some l2 => exact insertLoop_perm l nm l2 h

theorem insertLoop_none_iff (l : List Message) (nm : Message) :
    insertLoop l nm = none ↔ ∀ c ∈ l, condIns c nm = false := by
  induction l with
  | nil => simp [insertLoop]
  | cons c rest ih =>
    rw [insertLoop]
    cases h2 : insertLoop rest nm with
    | some rest2 =>
      simp only [reduceCtorEq, false_iff]
      intro hall
      have : insertLoop rest nm = none := ih.mpr (fun x hx => hall x (by simp [hx]))
      simp [this] at h2
    | none =>
      by_cases hc : condIns c nm = true
      · simp [hc]
      · simp only [Bool.not_eq_true] at hc
        simp only [hc, if_false, true_iff, List.mem_cons]
        constructor
        · intro _ x hx
          rcases hx with rfl | hx
          · exact hc
          · exact (ih.mp h2) x hx
        · intro _; rfl

theorem condIns_true_iff (cur nm : Message) :
    condIns cur nm = true ↔
      truthyTs cur.datetime = true ∧ truthyTs nm.datetime = true ∧
        tsVal cur.datetime ≤ tsVal nm.datetime := by
  simp [condIns, Bool.and_eq_true, decide_eq_true_eq, and_assoc]

theorem insertLoop_some_exists (l : List Message) (nm : Message) (l2 : List Message)
    (h : insertLoop l nm = some l2) : ∃ c ∈ l, condIns c nm = true := by
  by_contra hall
  push_neg at hall
  have hnone : insertLoop l nm = none :=
    (insertLoop_none_iff l nm).mpr (fun c hc => by simpa using hall c hc)
  simp [hnone] at h

theorem insertResult_pairwise (l : List Message) (nm : Message)
    (hs : l.Pairwise (fun a b => tsVal a.datetime ≤ tsVal b.datetime))
    (htr : ∀ c ∈ l, truthyTs c.datetime = true)
    (hnm : truthyTs nm.datetime = true) :
    (insertResult l nm).Pairwise (fun a b => tsVal a.datetime ≤ tsVal b.datetime) := by
  induction l with
  | nil => simp [insertResult, insertLoop, List.pairwise_singleton]
  | cons c rest ih =>
    unfold insertResult
    rw [insertLoop]
    obtain ⟨hchead, hsrest⟩ := List.pairwise_cons.mp hs
    cases h2 : insertLoop rest nm with
    | some rest2 =>
      simp only []
      have hrest2 : rest2.Pairwise (fun a b => tsVal a.datetime ≤ tsVal b.datetime) := by
        have hr := ih hsrest (fun x hx => htr x (List.mem_cons_of_mem c hx))
        unfold insertResult at hr
        rwa [h2] at hr
      have hperm := insertLoop_perm rest nm rest2 h2
      obtain ⟨y, hy, hcy⟩ := insertLoop_some_exists rest nm rest2 h2
      have hynm : tsVal y.datetime ≤ tsVal nm.datetime :=
        ((condIns_true_iff y nm).mp hcy).2.2
      refine List.pairwise_cons.mpr ⟨?_, hrest2⟩
      intro x hx
      rcases List.mem_cons.mp (hperm.mem_iff.mp hx) with rfl | hxr
      · exact le_trans (hchead y hy) hynm
      · exact hchead x hxr
    | none =>
      have hrestlow : ∀ x ∈ rest, tsVal nm.datetime ≤ tsVal x.datetime := by
        intro x hx
        have hfx := (insertLoop_none_iff rest nm).mp h2 x hx
        have htx := htr x (List.mem_cons_of_mem c hx)
        by_contra hle
        push_neg at hle
        have : condIns x nm = true :=
          (condIns_true_iff x nm).mpr ⟨htx, hnm, le_of_lt hle⟩
        simp [this] at hfx
      by_cases hc : condIns c nm = true
      · simp only [hc, if_true]
        refine List.pairwise_cons.mpr ⟨?_, List.pairwise_cons.mpr ⟨hrestlow, hsrest⟩⟩
        intro x hx
        rcases List.mem_cons.mp hx with rfl | hxr
        · exact ((condIns_true_iff c x).mp hc).2.2
        · exact hchead x hxr
      · simp only [Bool.not_eq_true] at hc
        simp only [hc, if_false]
        have hnmc : tsVal nm.datetime ≤ tsVal c.datetime := by
          have htc := htr c (by simp)
          by_contra hle
          push_neg at hle
          have hcontra : condIns c nm = true :=
            (condIns_true_iff c nm).mpr ⟨htc, hnm, le_of_lt hle⟩
          simp [hcontra] at hc
        refine List.pairwise_cons.mpr ⟨?_, hs⟩
        intro x hx
        rcases List.mem_cons.mp hx with rfl | hxr
        · exact hnmc
        · exact hrestlow x hxr

theorem isSorted_of_pairwise (l : List Message)
    (h : l.Pairwise (fun a b => tsVal a.datetime ≤ tsVal b.datetime)) :
    isSortedByDatetime l = true := by
  induction l with
  | nil => rfl
  | cons a t ih =>
    cases t with
    | nil => rfl
    | cons b r =>
      rw [isSortedByDatetime]
      obtain ⟨ha, ht⟩ := List.pairwise_cons.mp h
      simp [ha b (by simp), ih ht]

theorem find?_id_unique (l : List Message) (m : Message)
    (hp : l.Pairwise (fun a b => a.id ≠ b.id)) (hm : m ∈ l) :
    l.find? (fun x => x.id == m.id) = some m := by
  induction l with
  | nil => cases hm
  | cons a t ih =>
    obtain ⟨hhead, htail⟩ := List.pairwise_cons.mp hp
    by_cases hax : a.id = m.id
    · have : m = a := by
        rcases List.mem_cons.mp hm with rfl | hmt
        · rfl
        · exact absurd hax (hhead m hmt)
      subst this
      simp [List.find?_cons]
    · have hmt : m ∈ t := by
        rcases List.mem_cons.mp hm with rfl | hmt
        · exact absurd rfl hax
        · exact hmt
      rw [List.find?_cons_of_neg _ (by simp [hax]), ih htail hmt]

theorem mapGet_some_has (m : List (String × Message)) (k : String) (v : Message)
    (h : mapGet m k = some v) : mapHas m k = true := by
  unfold mapGet at h
  unfold mapHas
  cases hf : m.find? (fun p => p.1 == k) with
  | none => simp [hf] at h
  | some q =>
    have hq := List.find?_some hf
    exact List.any_eq_true.mpr ⟨q, List.mem_of_find?_eq_some hf, hq⟩

theorem id_not_mem_of_mapHas_false (st : StoreState) (hinv : storeInv st) (k : String)
    (hhas : mapHas st.messageIdToMessage k = false) :
    ∀ x ∈ st.messages, x.id ≠ k := by
  intro x hx hxk
  have h4 := hinv.2.2.2 x hx
  have hsome := mapGet_some_has _ _ _ h4
  rw [hxk] at hsome
  simp [hsome] at hhas

theorem addMessage_none_eq (st : StoreState) : addMessage st none = st := rfl

theorem addMessage_emptyId (st : StoreState) (msg : Message) (h : msg.id = "") :
    addMessage st (some msg) = st := by
  unfold addMessage
  simp [h]

theorem addMessage_fresh (st : StoreState) (msg : Message) (hid : msg.id ≠ "")
    (hhas : mapHas st.messageIdToMessage msg.id = false) :
    addMessage st (some msg) =
      { messages := insertResult st.messages msg,
        messageIdToMessage := mapSet st.messageIdToMessage msg.id msg,
        emittedSnapshots := st.emittedSnapshots ++ [insertResult st.messages msg] } := by
  unfold addMessage emitMessages
  simp [hid, hhas]

theorem addMessage_stale (st : StoreState) (msg existing : Message) (hid : msg.id ≠ "")
    (hhas : mapHas st.messageIdToMessage msg.id = true)
    (hfind : st.messages.find? (fun m => m.id == msg.id) = some existing)
    (hgt : jsDateGt msg.datetime existing.datetime = false) :
    addMessage st (some msg) = st := by
  unfold addMessage
  simp [hid, hhas, hfind, hgt]

theorem addMessage_no_array_entry (st : StoreState) (msg : Message) (hid : msg.id ≠ "")
    (hhas : mapHas st.messageIdToMessage msg.id = true)
    (hfind : st.messages.find? (fun m => m.id == msg.id) = none) :
    addMessage st (some msg) = st := by
  unfold addMessage
  simp [hid, hhas, hfind]

theorem addMessage_newer (st : StoreState) (msg existing : Message) (hid : msg.id ≠ "")
    (hhas : mapHas st.messageIdToMessage msg.id = true)
    (hfind : st.messages.find? (fun m => m.id == msg.id) = some existing)
    (hgt : jsDateGt msg.datetime existing.datetime = true) :
    addMessage st (some msg) =
      { messages := st.messages.set (st.messages.indexOf existing) msg,
        messageIdToMessage := mapSet st.messageIdToMessage msg.id msg,
        emittedSnapshots :=
          st.emittedSnapshots ++ [st.messages.set (st.messages.indexOf existing) msg] } := by
  have hmem : existing ∈ st.messages := List.mem_of_find?_eq_some hfind
  have hlt : st.messages.indexOf existing < st.messages.length :=
    List.indexOf_lt_length.mpr hmem
  unfold addMessage emitMessages
  simp [hid, hhas, hfind, hgt, hlt]

theorem pairwise_idNe_set (l : List Message) (i : Nat) (hi : i < l.length) (b : Message)
    (hp : l.Pairwise (fun a b => a.id ≠ b.id)) (hid : (l.get ⟨i, hi⟩).id = b.id) :
    (l.set i b).Pairwise (fun a b => a.id ≠ b.id) := by
  have hidg : l[i].id = b.id := hid
  rw [List.pairwise_iff_getElem] at hp ⊢
  intro j k hj hk hjk
  simp only [List.length_set] at hj hk
  rw [List.getElem_set, List.getElem_set]
  by_cases hij : i = j
  · subst hij
    rw [if_pos rfl, if_neg (show ¬(i = k) by omega)]
    rw [← hidg]
    exact hp i k hi hk hjk
  · rw [if_neg hij]
    by_cases hik : i = k
    · subst hik
      rw [if_pos rfl, ← hidg]
      exact hp j i hj hi hjk
    · rw [if_neg hik]
      exact hp j k hj hk hjk

theorem mem_set_of_mem_ne (l : List Message) (i : Nat) (b x : Message)
    (hx : x ∈ l) (hne : l[i]? ≠ some x) : x ∈ l.set i b := by
  obtain ⟨j, hj, hxj⟩ := List.getElem_of_mem hx
  by_cases hij : i = j
  · subst hij
    exfalso
    apply hne
    rw [List.getElem?_eq_getElem hj]
    exact congrArg some hxj
  · have hj2 : j < (l.set i b).length := by simpa using hj
    have hset : (l.set i b).get ⟨j, hj2⟩ = x := by
      have h0 : (l.set i b).get ⟨j, hj2⟩ = l.get ⟨j, hj⟩ := List.getElem_set_ne hij hj2
      rw [h0]
      exact hxj
    exact hset ▸ List.get_mem _ _ _

theorem storeInv_addMessage (st : StoreState) (hinv : storeInv st) (m? : Option Message) :
    storeInv (addMessage st m?) := by
  obtain ⟨h1, h2, h3, h4⟩ := hinv
  cases m? with
  | none => exact ⟨h1, h2, h3, h4⟩
  | some msg =>
    by_cases hid : msg.id = ""
    · rw [addMessage_emptyId st msg hid]; exact ⟨h1, h2, h3, h4⟩
    by_cases hhas : mapHas st.messageIdToMessage msg.id = true
    case neg =>
      have hhas' : mapHas st.messageIdToMessage msg.id = false := by simpa using hhas
      rw [addMessage_fresh st msg hid hhas']
      have hperm := insertResult_perm st.messages msg
      have hfreshids : ∀ x ∈ st.messages, x.id ≠ msg.id :=
        id_not_mem_of_mapHas_false st ⟨h1, h2, h3, h4⟩ msg.id hhas'
      have hmemiff : ∀ x, x ∈ insertResult st.messages msg ↔ x = msg ∨ x ∈ st.messages := by
        intro x
        rw [hperm.mem_iff, List.mem_cons]
      refine ⟨?_, ?_, ?_, ?_⟩
      · have hcons : (msg :: st.messages).Pairwise (fun a b => a.id ≠ b.id) := by
          refine List.pairwise_cons.mpr ⟨?_, h1⟩
          intro x hx he
          exact hfreshids x hx he.symm
        exact (hperm.pairwise_iff (fun h => Ne.symm h)).mpr hcons
      · intro m hm
        rcases (hmemiff m).mp hm with rfl | hmold
        · exact hid
        · exact h2 m hmold
      · intro p hp
        rcases (mem_mapSet _ _ _ p).mp hp with rfl | ⟨hpold, hpne⟩
        · exact ⟨(hmemiff msg).mpr (Or.inl rfl), rfl⟩
        · obtain ⟨hpm, hpid⟩ := h3 p hpold
          exact ⟨(hmemiff p.2).mpr (Or.inr hpm), hpid⟩
      · intro m hm
        rcases (hmemiff m).mp hm with rfl | hmold
        · exact mapGet_set_self _ _ _
        · rw [mapGet_set_ne _ _ _ _ (hfreshids m hmold)]
          exact h4 m hmold
    case pos =>
      cases hfind : st.messages.find? (fun m => m.id == msg.id) with
      | none =>
        rw [addMessage_no_array_entry st msg hid hhas hfind]
        exact ⟨h1, h2, h3, h4⟩
      | some existing =>
        by_cases hgt : jsDateGt msg.datetime existing.datetime = true
        case neg =>
          rw [addMessage_stale st msg existing hid hhas hfind (by simpa using hgt)]
          exact ⟨h1, h2, h3, h4⟩
        case pos =>
          rw [addMessage_newer st msg existing hid hhas hfind hgt]
          have hmem : existing ∈ st.messages := List.mem_of_find?_eq_some hfind
          have hexid0 := List.find?_some hfind
          have hexid : existing.id = msg.id := by simpa using hexid0
          have hlt : st.messages.indexOf existing < st.messages.length :=
            List.indexOf_lt_length.mpr hmem
          set i := st.messages.indexOf existing with hidef
          have hgeti : st.messages[i] = existing := List.getElem_indexOf hlt
          have hsetmem : ∀ x ∈ st.messages.set i msg,
              x = msg ∨ (x ∈ st.messages ∧ x.id ≠ msg.id) := by
            intro x hx
            obtain ⟨j, hj0, hxj⟩ := List.getElem_of_mem hx
            have hj : j < st.messages.length := by simpa using hj0
            rw [List.getElem_set] at hxj
            by_cases hij : i = j
            · left
              rw [if_pos hij] at hxj
              exact hxj.symm
            · right
              rw [if_neg hij] at hxj
              constructor
              · exact hxj ▸ List.getElem_mem _
              · rw [← hxj, ← hexid, ← hgeti]
                have hpair := List.pairwise_iff_getElem.mp h1
                rcases Nat.lt_or_ge j i with hji | hji
                · exact hpair j i hj hlt hji
                · have hij' : i < j := by omega
                  exact fun he => (hpair i j hlt hj hij') he.symm
          have hmsgmem : msg ∈ st.messages.set i msg := List.mem_set st.messages i hlt msg
          refine ⟨?_, ?_, ?_, ?_⟩
          · exact pairwise_idNe_set st.messages i hlt msg h1
              (by show st.messages[i].id = msg.id; rw [hgeti, hexid])
          · intro m hm
            rcases hsetmem m hm with rfl | ⟨hmold, _⟩
            · exact hid
            · exact h2 m hmold
          · intro p hp
            rcases (mem_mapSet _ _ _ p).mp hp with rfl | ⟨hpold, hpne⟩
            · exact ⟨hmsgmem, rfl⟩
            · obtain ⟨hpm, hpid⟩ := h3 p hpold
              refine ⟨mem_set_of_mem_ne _ _ _ _ hpm ?_, hpid⟩
              intro he
              have hq : st.messages[i]? = some existing := by
                rw [List.getElem?_eq_getElem hlt]
                exact congrArg some hgeti
              rw [hq] at he
              have hpe : existing = p.2 := by injection he
              apply hpne
              rw [← hpid, ← hpe, hexid]
          · intro m hm
            rcases hsetmem m hm with rfl | ⟨hmold, hmne⟩
            · exact mapGet_set_self _ _ _
            · rw [mapGet_set_ne _ _ _ _ hmne]
              exact h4 m hmold

theorem storeInv_empty : storeInv emptyStore := by
  refine ⟨List.Pairwise.nil, ?_, ?_, ?_⟩ <;> intro x hx <;> cases hx

theorem storeInv_runStore (batch : List (Option Message)) : storeInv (runStore batch) := by
  have hgen : ∀ (b : List (Option Message)) (st : StoreState), storeInv st →
      storeInv (b.foldl addMessage st) := by
    intro b
    induction b with
    | nil => intro st h; exact h
    | cons x rest ih =>
      intro st h
      exact ih (addMessage st x) (storeInv_addMessage st h x)
  exact hgen batch emptyStore storeInv_empty

theorem addMessage_step_emission (st : StoreState) (m? : Option Message) :
    addMessage st m? = st ∨
    (addMessage st m?).emittedSnapshots =
      st.emittedSnapshots ++ [(addMessage st m?).messages] := by
  cases m? with
  | none => exact Or.inl rfl
  | some msg =>
    by_cases hid : msg.id = ""
    · exact Or.inl (addMessage_emptyId st msg hid)
    by_cases hhas : mapHas st.messageIdToMessage msg.id = true
    case neg =>
      right
      rw [addMessage_fresh st msg hid (by simpa using hhas)]
    case pos =>
      cases hfind : st.messages.find? (fun m => m.id == msg.id) with
      | none => exact Or.inl (addMessage_no_array_entry st msg hid hhas hfind)
      | some existing =>
        by_cases hgt : jsDateGt msg.datetime existing.datetime = true
        · right
          rw [addMessage_newer st msg existing hid hhas hfind hgt]
        · exact Or.inl (addMessage_stale st msg existing hid hhas hfind (by simpa using hgt))

theorem emissionInv_addMessage (st : StoreState) (hinv : storeInv st)
    (he : emissionInv st) (m? : Option Message) : emissionInv (addMessage st m?) := by
  rcases addMessage_step_emission st m? with hsame | hemit
  · rwa [hsame]
  · have hids : ∀ m ∈ (addMessage st m?).messages, m.id ≠ "" :=
      (storeInv_addMessage st hinv m?).2.1
    constructor
    · intro snap hsnap
      rw [hemit] at hsnap
      rcases List.mem_append.mp hsnap with hold | hnew
      · exact he.1 snap hold
      · have : snap = (addMessage st m?).messages := by simpa using hnew
        exact this ▸ hids
    · right
      rw [hemit]
      exact List.getLast?_concat _

theorem emissionInv_empty : emissionInv emptyStore := by
  constructor
  · intro snap hsnap; cases hsnap
  · exact Or.inl ⟨rfl, rfl⟩

theorem emissionInv_runStore (batch : List (Option Message)) :
    emissionInv (runStore batch) := by
  have hgen : ∀ (b : List (Option Message)) (st : StoreState),
      storeInv st → emissionInv st → emissionInv (b.foldl addMessage st) := by
    intro b
    induction b with
    | nil => intro st _ h; exact h
    | cons x rest ih =>
      intro st hs h
      exact ih (addMessage st x) (storeInv_addMessage st hs x)
        (emissionInv_addMessage st hs h x)
  exact hgen batch emptyStore storeInv_empty emissionInv_empty

theorem mapHas_set_self (m : List (String × Message)) (k : String) (v : Message) :
    mapHas (mapSet m k v) k = true := by
  simp [mapHas, mapSet]

theorem mapHas_set_ne (m : List (String × Message)) (k : String) (v : Message)
    (k' : String) (h : k' ≠ k) : mapHas (mapSet m k v) k' = mapHas m k' := by
  unfold mapHas mapSet
  rw [List.any_cons, List.any_filter]
  have h1 : ((k, v).1 == k') = false := by simp [Ne.symm h]
  rw [h1]
  simp only [Bool.false_or]
  congr 1
  funext p
  by_cases hp : p.1 = k'
  · simp [hp, h]
  · simp [hp]

theorem insert_only_sorted_aux (batch : List Message) (st : StoreState)
    (hsort : st.messages.Pairwise (fun a b => tsVal a.datetime ≤ tsVal b.datetime))
    (htr : ∀ m ∈ st.messages, truthyTs m.datetime = true)
    (hhasiff : ∀ k, mapHas st.messageIdToMessage k = true ↔ ∃ m ∈ st.messages, m.id = k)
    (hts : ∀ m ∈ batch, truthyTs m.datetime = true)
    (hids : batch.Pairwise (fun a b => a.id ≠ b.id))
    (hfresh : ∀ m ∈ batch, ∀ x ∈ st.messages, x.id ≠ m.id) :
    ((batch.map some).foldl addMessage st).messages.Pairwise
      (fun a b => tsVal a.datetime ≤ tsVal b.datetime) := by
  induction batch generalizing st with
  | nil => simpa using hsort
  | cons m rest ih =>
    simp only [List.map_cons, List.foldl_cons]
    obtain ⟨hidshead, hidstail⟩ := List.pairwise_cons.mp hids
    by_cases hid : m.id = ""
    · rw [addMessage_emptyId st m hid]
      exact ih st hsort htr hhasiff (fun x hx => hts x (by simp [hx])) hidstail
        (fun x hx y hy => hfresh x (by simp [hx]) y hy)
    · have hhas : mapHas st.messageIdToMessage m.id = false := by
        by_contra hh
        have hh' : mapHas st.messageIdToMessage m.id = true := by simpa using hh
        obtain ⟨x, hx, hxid⟩ := (hhasiff m.id).mp hh'
        exact hfresh m (by simp) x hx hxid
      rw [addMessage_fresh st m hid hhas]
      have hperm := insertResult_perm st.messages m
      have hmemiff : ∀ x, x ∈ insertResult st.messages m ↔ x = m ∨ x ∈ st.messages := by
        intro x
        rw [hperm.mem_iff, List.mem_cons]
      refine ih _ ?_ ?_ ?_ (fun x hx => hts x (by simp [hx])) hidstail ?_
      · exact insertResult_pairwise st.messages m hsort htr (hts m (by simp))
      · intro x hx
        rcases (hmemiff x).mp hx with rfl | hxold
        · exact hts x (by simp)
        · exact htr x hxold
      · intro k
        constructor
        · intro hk
          by_cases hkm : k = m.id
          · exact ⟨m, (hmemiff m).mpr (Or.inl rfl), hkm.symm⟩
          · rw [mapHas_set_ne _ _ _ _ hkm] at hk
            obtain ⟨x, hx, hxid⟩ := (hhasiff k).mp hk
            exact ⟨x, (hmemiff x).mpr (Or.inr hx), hxid⟩
        · rintro ⟨x, hx, rfl⟩
          rcases (hmemiff x).mp hx with rfl | hxold
          · exact mapHas_set_self _ _ _
          · by_cases hkm : x.id = m.id
            · rw [hkm]
              exact mapHas_set_self _ _ _
            · rw [mapHas_set_ne _ _ _ _ hkm]
              exact (hhasiff x.id).mpr ⟨x, hxold, rfl⟩
      · intro m' hm' x hx
        rcases (hmemiff x).mp hx with rfl | hxold
        · exact hidshead m' hm'
        · exact hfresh m' (by simp [hm']) x hxold

theorem jsDateGt_irrefl (d : Option Int) : jsDateGt d d = false := by
  cases d <;> simp [jsDateGt]

theorem countP_id_eq_one (l : List Message)
    (hp : l.Pairwise (fun a b => a.id ≠ b.id)) (m : Message) (hm : m ∈ l) :
    l.countP (fun x => x.id == m.id) = 1 := by
  induction l with
  | nil => cases hm
  | cons a t ih =>
    obtain ⟨hh, ht⟩ := List.pairwise_cons.mp hp
    rcases List.mem_cons.mp hm with rfl | hmt
    · rw [List.countP_cons]
      have hz : t.countP (fun x => x.id == m.id) = 0 := by
        rw [List.countP_eq_zero]
        intro x hx
        simp only [beq_iff_eq]
        exact fun he => (hh x hx) he.symm
      simp [hz]
    · rw [List.countP_cons]
      have hane : (a.id == m.id) = false := by
        simp only [beq_eq_false_iff_ne, ne_eq]
        exact hh m hmt
      rw [ih ht hmt, hane]
      simp

/-- C9: after every sequence of `addMessage` calls starting from a fresh
store, the `messages` array and the `messageIdToMessage` index stay
mutually consistent: the ids in the array are pairwise distinct, the key
set of the index equals the set of ids occurring in the array, and every
key maps to the array element bearing that id. -/
theorem addMessage_index_consistent (batch : List (Option Message)) :
    (runStore batch).messages.Pairwise (fun a b => a.id ≠ b.id) ∧
    (∀ k, mapHas (runStore batch).messageIdToMessage k = true ↔
      ∃ m ∈ (runStore batch).messages, m.id = k) ∧
    (∀ k m, mapGet (runStore batch).messageIdToMessage k = some m →
      m ∈ (runStore batch).messages ∧ m.id = k) := by
  obtain ⟨h1, h2, h3, h4⟩ := storeInv_runStore batch
  refine ⟨h1, ?_, ?_⟩
  · intro k
    constructor
    · intro hk
      obtain ⟨p, hp, hpk⟩ := List.any_eq_true.mp hk
      obtain ⟨hpm, hpid⟩ := h3 p hp
      refine ⟨p.2, hpm, ?_⟩
      rw [hpid]
      simpa using hpk
    · rintro ⟨m, hm, rfl⟩
      exact mapGet_some_has _ _ _ (h4 m hm)
  · intro k m hk
    exact h3 (k, m) (mapGet_mem _ _ _ hk)

/-- C5: `addMessage` called with a null/undefined message or a message with
a falsy id never corrupts the store: it is a total function that leaves the
`messages` array, the index and the emission stream untouched, and no
emitted snapshot ever contains an id-less message. -/
theorem addMessage_invalid_rejected :
    (∀ st : StoreState, addMessage st none = st) ∧
    (∀ (st : StoreState) (m : Message), m.id = "" → addMessage st (some m) = st) ∧
    (∀ batch : List (Option Message), ∀ snap ∈ (runStore batch).emittedSnapshots,
      ∀ m ∈ snap, m.id ≠ "") := by
  refine ⟨fun st => rfl, fun st m h => addMessage_emptyId st m h, ?_⟩
  intro batch snap hsnap m hm
  exact (emissionInv_runStore batch).1 snap hsnap m hm

/-- Witness for C5 at concrete inputs: rejecting `none` and an id-less
message leaves the sample store untouched. -/
theorem addMessage_invalid_rejected_witness :
    addMessage stW none = stW ∧ addMessage stW (some mNoId) = stW :=
  ⟨addMessage_invalid_rejected.1 stW, addMessage_invalid_rejected.2.1 stW mNoId rfl⟩

/-- C1 counterexample: insert `a@1` then `b@2`, then add `a` again with the
strictly newer datetime 3.  The update branch replaces in place at index 0,
leaving `[a@3, b@2]`, which is not sorted ascending by datetime — so the
chronological invariant does not survive the in-place replacement branch. -/
theorem addMessage_update_breaks_order :
    isSortedByDatetime (runStore [some mA1, some mB2, some mA3]).messages = false ∧
    (runStore [some mA1, some mB2, some mA3]).messages = [mA3, mB2] ∧
    tsVal mA3.datetime > tsVal mB2.datetime := by
  refine ⟨by decide, by decide, by decide⟩

/-- C1 (amended): for every sequence of `addMessage` calls that only inserts
new ids (pairwise distinct) whose datetimes all have truthy millisecond
timestamps, the stored sequence is sorted ascending by datetime, in any
arrival order.  The unamended claim fails on the in-place update branch
(see the counterexample) and on falsy timestamps (see C10). -/
theorem addMessage_insert_sorted (batch : List Message)
    (hts : ∀ m ∈ batch, truthyTs m.datetime = true)
    (hids : batch.Pairwise (fun a b => a.id ≠ b.id)) :
    isSortedByDatetime (runStore (batch.map some)).messages = true := by
  apply isSorted_of_pairwise
  apply insert_only_sorted_aux batch emptyStore List.Pairwise.nil
  · intro m hm; cases hm
  · intro k
    constructor
    · intro hk; simp [mapHas, emptyStore] at hk
    · rintro ⟨m, hm, _⟩; cases hm
  · exact hts
  · exact hids
  · intro m _ x hx; cases hx

/-- Witness for C1 (amended): out-of-order arrival `b@2` then `a@1` still
yields a sorted store. -/
theorem addMessage_insert_sorted_witness :
    isSortedByDatetime (runStore ([mB2, mA1].map some)).messages = true :=
  addMessage_insert_sorted [mB2, mA1] (by decide) (by decide)

/-- C10: a new message whose datetime has a falsy millisecond timestamp
(missing/invalid date or the epoch instant 0) is never matched by the
backward scan and is always unshifted to position 0, whatever the stored
datetimes; and a stored message with a falsy timestamp never satisfies the
scan comparison, so it is skipped for later insertions. -/
theorem addMessage_falsy_timestamp_unshift :
    (∀ (st : StoreState) (msg : Message), truthyTs msg.datetime = false →
      msg.id ≠ "" → mapHas st.messageIdToMessage msg.id = false →
      (addMessage st (some msg)).messages = msg :: st.messages) ∧
    (∀ cur nm : Message, truthyTs cur.datetime = false → condIns cur nm = false) := by
  constructor
  · intro st msg ht hid hhas
    rw [addMessage_fresh st msg hid hhas]
    have hnone : insertLoop st.messages msg = none :=
      (insertLoop_none_iff _ _).mpr (fun c _ => by simp [condIns, ht])
    show insertResult st.messages msg = msg :: st.messages
    simp [insertResult, hnone]
  · intro cur nm h
    simp [condIns, h]

/-- Witness for C10: the epoch-timestamp message `z@0` lands at position 0
of the sample store `[a@1, b@2]`, and is skipped by the scan comparison. -/
theorem addMessage_falsy_timestamp_unshift_witness :
    (addMessage stW (some mZ0)).messages = mZ0 :: stW.messages ∧
    condIns mZ0 mA1 = false :=
  ⟨addMessage_falsy_timestamp_unshift.1 stW mZ0 (by decide) (by decide) (by decide),
   addMessage_falsy_timestamp_unshift.2 mZ0 mA1 (by decide)⟩

/-- C2: if the store holds `mold` with id X and datetime T1, then adding
`mnew` with the same id and datetime T2 > T1 leaves exactly one message
with id X — `mnew` itself, with its body and fields — replaced at the index
where `mold` was stored, the index updated, and one snapshot emitted to
subscribers. -/
theorem addMessage_newer_replaces_in_place (st : StoreState) (hinv : storeInv st)
    (mold mnew : Message) (t1 t2 : Int) (hm : mold ∈ st.messages)
    (hid : mnew.id = mold.id) (h1 : mold.datetime = some t1)
    (h2 : mnew.datetime = some t2) (hgt : t1 < t2) :
    (addMessage st (some mnew)).messages.countP (fun x => x.id == mnew.id) = 1 ∧
    mnew ∈ (addMessage st (some mnew)).messages ∧
    mapGet (addMessage st (some mnew)).messageIdToMessage mnew.id = some mnew ∧
    (∃ i, st.messages[i]? = some mold ∧
      (addMessage st (some mnew)).messages = st.messages.set i mnew) ∧
    (addMessage st (some mnew)).emittedSnapshots =
      st.emittedSnapshots ++ [(addMessage st (some mnew)).messages] := by
  have hidne : mnew.id ≠ "" := by rw [hid]; exact hinv.2.1 mold hm
  have hhas : mapHas st.messageIdToMessage mnew.id = true := by
    rw [hid]; exact mapGet_some_has _ _ _ (hinv.2.2.2 mold hm)
  have hfind : st.messages.find? (fun m => m.id == mnew.id) = some mold := by
    rw [hid]; exact find?_id_unique st.messages mold hinv.1 hm
  have hgtb : jsDateGt mnew.datetime mold.datetime = true := by
    rw [h1, h2]; simp [jsDateGt, hgt]
  have hinv1 := storeInv_addMessage st hinv (some mnew)
  have heq := addMessage_newer st mnew mold hidne hhas hfind hgtb
  have hlt : st.messages.indexOf mold < st.messages.length :=
    List.indexOf_lt_length.mpr hm
  have hmem1 : mnew ∈ (addMessage st (some mnew)).messages := by
    rw [heq]; exact List.mem_set st.messages _ hlt mnew
  refine ⟨countP_id_eq_one _ hinv1.1 mnew hmem1, hmem1, ?_, ?_, ?_⟩
  · rw [heq]; exact mapGet_set_self _ _ _
  · refine ⟨st.messages.indexOf mold, ?_, ?_⟩
    · rw [List.getElem?_eq_getElem hlt]
      exact congrArg some (List.getElem_indexOf hlt)
    · rw [heq]
  · rw [heq]

/-- Witness for C2: updating `a@1` to `a@3` in the sample store `[a@1, b@2]`
replaces in place, keeps a single `a`, and emits. -/
theorem addMessage_newer_replaces_in_place_witness :
    (addMessage stW (some mA3)).messages.countP (fun x => x.id == mA3.id) = 1 ∧
    mA3 ∈ (addMessage stW (some mA3)).messages ∧
    mapGet (addMessage stW (some mA3)).messageIdToMessage mA3.id = some mA3 ∧
    (∃ i, stW.messages[i]? = some mA1 ∧
      (addMessage stW (some mA3)).messages = stW.messages.set i mA3) ∧
    (addMessage stW (some mA3)).emittedSnapshots =
      stW.emittedSnapshots ++ [(addMessage stW (some mA3)).messages] :=
  addMessage_newer_replaces_in_place stW (by decide) mA1 mA3 1 3
    (by decide) (by decide) (by decide) (by decide) (by decide)

/-- C4: a stale update (same id, datetime T2 ≤ T1) leaves the entire store
state — messages, index and emission stream — unchanged, and `addMessage`
is idempotent: calling it twice in succession with the same argument yields
the same state as calling it once. -/
theorem addMessage_stale_noop_and_idempotent (st : StoreState) (hinv : storeInv st) :
    (∀ (mold mnew : Message) (t1 t2 : Int), mold ∈ st.messages → mnew.id = mold.id →
      mold.datetime = some t1 → mnew.datetime = some t2 → t2 ≤ t1 →
      addMessage st (some mnew) = st) ∧
    (∀ m? : Option Message, addMessage (addMessage st m?) m? = addMessage st m?) := by
  constructor
  · intro mold mnew t1 t2 hm hid h1 h2 hle
    have hidne : mnew.id ≠ "" := by rw [hid]; exact hinv.2.1 mold hm
    have hhas : mapHas st.messageIdToMessage mnew.id = true := by
      rw [hid]; exact mapGet_some_has _ _ _ (hinv.2.2.2 mold hm)
    have hfind : st.messages.find? (fun m => m.id == mnew.id) = some mold := by
      rw [hid]; exact find?_id_unique st.messages mold hinv.1 hm
    have hgtb : jsDateGt mnew.datetime mold.datetime = false := by
      rw [h1, h2]
      simp [jsDateGt]
      omega
    exact addMessage_stale st mnew mold hidne hhas hfind hgtb
  · intro m?
    cases m? with
    | none => rfl
    | some msg =>
      by_cases hid : msg.id = ""
      · have h := addMessage_emptyId st msg hid
        rw [h, h]
      by_cases hhas : mapHas st.messageIdToMessage msg.id = true
      case neg =>
        have hhas' : mapHas st.messageIdToMessage msg.id = false := by simpa using hhas
        have heq := addMessage_fresh st msg hid hhas'
        have hinv1 := storeInv_addMessage st hinv (some msg)
        have hmem1 : msg ∈ (addMessage st (some msg)).messages := by
          rw [heq]
          exact (insertResult_perm st.messages msg).mem_iff.mpr (by simp)
        have hhas1 : mapHas (addMessage st (some msg)).messageIdToMessage msg.id = true := by
          rw [heq]; exact mapHas_set_self _ _ _
        have hfind1 : (addMessage st (some msg)).messages.find?
            (fun m => m.id == msg.id) = some msg :=
          find?_id_unique _ msg hinv1.1 hmem1
        exact addMessage_stale _ msg msg hid hhas1 hfind1 (jsDateGt_irrefl _)
      case pos =>
        cases hfind : st.messages.find? (fun m => m.id == msg.id) with
        | none =>
          have heq := addMessage_no_array_entry st msg hid hhas hfind
          rw [heq]
          exact heq
        | some existing =>
          by_cases hgt : jsDateGt msg.datetime existing.datetime = true
          case pos =>
            have heq := addMessage_newer st msg existing hid hhas hfind hgt
            have hinv1 := storeInv_addMessage st hinv (some msg)
            have hlt : st.messages.indexOf existing < st.messages.length :=
              List.indexOf_lt_length.mpr (List.mem_of_find?_eq_some hfind)
            have hmem1 : msg ∈ (addMessage st (some msg)).messages := by
              rw [heq]; exact List.mem_set st.messages _ hlt msg
            have hhas1 : mapHas (addMessage st (some msg)).messageIdToMessage msg.id = true := by
              rw [heq]; exact mapHas_set_self _ _ _
            have hfind1 : (addMessage st (some msg)).messages.find?
                (fun m => m.id == msg.id) = some msg :=
              find?_id_unique _ msg hinv1.1 hmem1
            exact addMessage_stale _ msg msg hid hhas1 hfind1 (jsDateGt_irrefl _)
          case neg =>
            have heq := addMessage_stale st msg existing hid hhas hfind (by simpa using hgt)
            rw [heq]
            exact heq

/-- Witness for C4: re-adding `a@1` to the sample store `[a@1, b@2]` is a
no-op, and adding the update `a@3` twice equals adding it once. -/
theorem addMessage_stale_noop_and_idempotent_witness :
    addMessage stW (some mA1) = stW ∧
    addMessage (addMessage stW (some mA3)) (some mA3) = addMessage stW (some mA3) :=
  ⟨(addMessage_stale_noop_and_idempotent stW (by decide)).1 mA1 mA1 1 1
      (by decide) rfl (by decide) (by decide) (by decide),
    (addMessage_stale_noop_and_idempotent stW (by decide)).2 (some mA3)⟩

theorem string_append_ne_empty_left (s t : String) (h : s ≠ "") : s ++ t ≠ "" := by
  intro he
  apply h
  have hlen : (s ++ t).length = 0 := by rw [he]; rfl
  rw [String.length_append] at hlen
  have hs : s.length = 0 := by omega
  cases s with
  | mk data =>
    cases data with
    | nil => rfl
    | cons a l => simp [String.length] at hs

theorem addMessage_fresh_facts (st : StoreState) (msg : Message) (hid : msg.id ≠ "")
    (hhas : mapHas st.messageIdToMessage msg.id = false) :
    msg ∈ (addMessage st (some msg)).messages ∧
    mapGet (addMessage st (some msg)).messageIdToMessage msg.id = some msg ∧
    (addMessage st (some msg)).emittedSnapshots =
      st.emittedSnapshots ++ [(addMessage st (some msg)).messages] := by
  have heq := addMessage_fresh st msg hid hhas
  refine ⟨?_, ?_, ?_⟩
  · rw [heq]
    exact (insertResult_perm st.messages msg).mem_iff.mpr (by simp)
  · rw [heq]
    exact mapGet_set_self _ _ _
  · rw [heq]

/-- C6 counterexample: after one `addMessage` the current snapshot is
`[mA1]`, but a new subscriber's first delivered value is the `startWith`
value `[]` — not the current snapshot as the claim states. -/
theorem messages_stream_first_not_current_snapshot :
    (subscribeDeliveries (runStore [some mA1]).emittedSnapshots).head? = some [] ∧
    (runStore [some mA1]).messages = [mA1] ∧
    (subscribeDeliveries (runStore [some mA1]).emittedSnapshots).head? ≠
      some (runStore [some mA1]).messages :=
  ⟨rfl, by decide, by decide⟩

/-- C6 (amended): a new subscriber of `messages$` first receives the empty
sequence contributed by `startWith([])`, then the replay of the up-to-50
most recent snapshots — whose last element is the current snapshot whenever
any change has been emitted (and when none has, the store is empty) — and
thereafter each `addMessage` call either leaves the state untouched or
emits exactly one snapshot, the new current one. -/
theorem messages_stream_replay_semantics (batch : List (Option Message)) :
    (subscribeDeliveries (runStore batch).emittedSnapshots).head? = some [] ∧
    (subscribeDeliveries (runStore batch).emittedSnapshots).tail =
      (runStore batch).emittedSnapshots.drop
        ((runStore batch).emittedSnapshots.length - 50) ∧
    ((runStore batch).emittedSnapshots.getLast? = some (runStore batch).messages ∨
      ((runStore batch).emittedSnapshots = [] ∧ (runStore batch).messages = [])) ∧
    (∀ m? : Option Message, addMessage (runStore batch) m? = runStore batch ∨
      (addMessage (runStore batch) m?).emittedSnapshots =
        (runStore batch).emittedSnapshots ++ [(addMessage (runStore batch) m?).messages]) := by
  refine ⟨rfl, rfl, ?_, fun m? => addMessage_step_emission _ m?⟩
  rcases (emissionInv_runStore batch).2 with h | h
  · exact Or.inr h
  · exact Or.inl h

/-- C7 counterexample: a send failure whose error message mentions
encryption is swallowed by the inner catch: `sendMessage` resolves normally
instead of rejecting, so the failure is not surfaced to the caller as the
claim states. -/
theorem sendMessage_encryption_error_not_rethrown :
    (sendMessageModel emptyStore "hi" "@me:hs" 1000
      (SendResult.err ⟨"room requires encryption"⟩)).2 = SendOutcome.returned ∧
    (sendMessageModel emptyStore "hi" "@me:hs" 1000
      (SendResult.err ⟨"room requires encryption"⟩)).2 ≠
      SendOutcome.threw "room requires encryption" :=
  ⟨by decide, by decide⟩

/-- C7 (amended): every send-command failure inserts a diagnostic failure
message into the recipient's store — id prefix `failed-`, or
`encryption-failed-` when the error message mentions encryption, with
`state: SENDING` — and emits a snapshot; a non-encryption error is
additionally re-thrown to the caller, while an encryption-related error
makes `sendMessage` return normally, the failure being surfaced only by
the inserted message. -/
theorem sendMessage_failure_inserts (store : StoreState) (messageBody userId : String)
    (now : Int) (e : SendErr)
    (hfresh : mapHas store.messageIdToMessage
      (sendFailureMessage e messageBody userId now).id = false) :
    (sendMessageModel store messageBody userId now (.err e)).1 =
      addMessage store (some (sendFailureMessage e messageBody userId now)) ∧
    sendFailureMessage e messageBody userId now ∈
      (sendMessageModel store messageBody userId now (.err e)).1.messages ∧
    mapGet (sendMessageModel store messageBody userId now (.err e)).1.messageIdToMessage
        (sendFailureMessage e messageBody userId now).id =
      some (sendFailureMessage e messageBody userId now) ∧
    (sendFailureMessage e messageBody userId now).state = MessageState.SENDING ∧
    (sendFailureMessage e messageBody userId now).id =
      (if isEncryptionError e then "encryption-failed-" else "failed-") ++ toString now ∧
    (sendMessageModel store messageBody userId now (.err e)).1.emittedSnapshots =
      store.emittedSnapshots ++
        [(sendMessageModel store messageBody userId now (.err e)).1.messages] ∧
    (sendMessageModel store messageBody userId now (.err e)).2 =
      (if isEncryptionError e then SendOutcome.returned
        else SendOutcome.threw e.message) := by
  have hidne : (sendFailureMessage e messageBody userId now).id ≠ "" := by
    unfold sendFailureMessage mkEncryptionFailedMessage mkFailedMessage
    by_cases henc : isEncryptionError e
    · simp only [henc, if_true]
      exact string_append_ne_empty_left _ _ (by decide)
    · simp only [henc, if_false]
      exact string_append_ne_empty_left _ _ (by decide)
  have heq1 : (sendMessageModel store messageBody userId now (.err e)).1 =
      addMessage store (some (sendFailureMessage e messageBody userId now)) := by
    unfold sendMessageModel sendFailureMessage
    by_cases henc : isEncryptionError e <;> simp [henc]
  have hout : (sendMessageModel store messageBody userId now (.err e)).2 =
      (if isEncryptionError e then SendOutcome.returned
        else SendOutcome.threw e.message) := by
    unfold sendMessageModel
    by_cases henc : isEncryptionError e <;> simp [henc]
  obtain ⟨hmem, hget, hsnap⟩ := addMessage_fresh_facts store _ hidne hfresh
  refine ⟨heq1, ?_, ?_, ?_, ?_, ?_, hout⟩
  · rw [heq1]; exact hmem
  · rw [heq1]; exact hget
  · unfold sendFailureMessage mkEncryptionFailedMessage mkFailedMessage
    by_cases henc : isEncryptionError e <;> simp [henc]
  · unfold sendFailureMessage mkEncryptionFailedMessage mkFailedMessage
    by_cases henc : isEncryptionError e <;> simp [henc]
  · rw [heq1]; exact hsnap

/-- Witness for C7 (amended) at a concrete non-encryption failure: the
failure message is inserted and the error is re-thrown. -/
theorem sendMessage_failure_inserts_witness :
    (sendMessageModel emptyStore "hi" "@me:hs" 7 (SendResult.err ⟨"boom"⟩)).1 =
      addMessage emptyStore (some (sendFailureMessage ⟨"boom"⟩ "hi" "@me:hs" 7)) ∧
    (sendMessageModel emptyStore "hi" "@me:hs" 7 (SendResult.err ⟨"boom"⟩)).2 =
      (if isEncryptionError ⟨"boom"⟩ then SendOutcome.returned
        else SendOutcome.threw "boom") :=
  ⟨(sendMessage_failure_inserts emptyStore "hi" "@me:hs" 7 ⟨"boom"⟩ (by decide)).1,
   (sendMessage_failure_inserts emptyStore "hi" "@me:hs" 7 ⟨"boom"⟩ (by decide)).2.2.2.2.2.2⟩

theorem decryptionErrorMessage_mem (s : String) :
    decryptionErrorMessage s ∈
      ["🔐 Message sent before you joined this room",
       "🔐 Missing encryption keys for this device",
       "🔐 Message from unknown device",
       "🔐 Message from unverified device",
       "🔐 Encrypted message (encryption disabled)"] := by
  unfold decryptionErrorMessage
  split_ifs <;> simp

/-- C8: every event that passes the validity filters and is marked as an
undecryptable encrypted payload is synthesized into a placeholder message
whose id, timestamp and sender equal those of the original event and whose
body is one of the human-readable decryption-failure texts, and is routed
into the resolved recipient's store through the normal `addMessage` path
(firing the received and message signals) instead of being dropped or
raising an error. -/
theorem handleMatrixMessage_decryption_failure (env : HandleEnv) (ev : MatrixEvent)
    (store : StoreState) (hroom : env.roomFound = true) (hs : ev.sender ≠ "")
    (hc : ev.hasContent = true) (he : ev.eventId ≠ "") (ht : ev.ts ≠ 0)
    (htype : ev.eventType = "m.room.encrypted") (hfail : ev.isDecryptionFailure = true)
    (hres : env.recipientResolved = true) :
    handleMatrixMessage env ev store =
      (addMessage store (some (decryptionFailureMessage env ev)),
        HandleResult.added (decryptionFailureMessage env ev) true false true) ∧
    (decryptionFailureMessage env ev).id = ev.eventId ∧
    (decryptionFailureMessage env ev).datetime = some ev.ts ∧
    (decryptionFailureMessage env ev).fromJid = ev.sender ∧
    (decryptionFailureMessage env ev).body =
      decryptionErrorMessage (decryptionErrorSource ev).toLower ∧
    (decryptionFailureMessage env ev).body ∈
      ["🔐 Message sent before you joined this room",
       "🔐 Missing encryption keys for this device",
       "🔐 Message from unknown device",
       "🔐 Message from unverified device",
       "🔐 Encrypted message (encryption disabled)"] := by
  refine ⟨?_, rfl, rfl, rfl, rfl, decryptionErrorMessage_mem _⟩
  unfold handleMatrixMessage
  simp [hroom, hs, hc, he, ht, htype, hfail, hres]

/-- Witness for C8 at a concrete undecryptable event: the placeholder is
added with the event's id. -/
theorem handleMatrixMessage_decryption_failure_witness :
    handleMatrixMessage envW evW emptyStore =
      (addMessage emptyStore (some (decryptionFailureMessage envW evW)),
        HandleResult.added (decryptionFailureMessage envW evW) true false true) ∧
    (decryptionFailureMessage envW evW).id = evW.eventId :=
  ⟨(handleMatrixMessage_decryption_failure envW evW emptyStore rfl (by decide) rfl
      (by decide) (by decide) rfl rfl rfl).1,
   (handleMatrixMessage_decryption_failure envW evW emptyStore rfl (by decide) rfl
      (by decide) (by decide) rfl rfl rfl).2.1⟩

theorem getOrCreateContactById_sequential_singleton (w : ContactWorld) (j n1 n2 : String) :
    (getOrCreateContactById (getOrCreateContactById w j n1).2 j n2).1 =
      (getOrCreateContactById w j n1).1 := by
  unfold getOrCreateContactById
  cases hf : resolveLookup w j with
  | some c => simp [hf]
  | none =>
    simp only [hf]
    unfold resolveCreate
    simp only []
    unfold resolveLookup
    simp only []
    have hn : w.contacts.find? (fun c => c.bareJid == j) = none := hf
    rw [List.find?_append, hn]
    simp

/-- C3: evaluation at the failing schedule.  Two `getOrCreateContactById`
calls for the same canonical identifier that overlap at the
`await this.matrixClient.getUser(...)` suspension point both miss the
existence check before either registers: each constructs a fresh `Contact`
(each owning a fresh `MessageStore`), so two distinct live Recipient
instances exist for one canonical identifier, and the second `next` call —
built from the contact list captured before the `await` — even drops the
first contact from the published registry. -/
theorem getOrCreateContactById_interleaving_duplicates :
    (interleavedResolveTwice ⟨[], 0⟩ "@u1:example.org" "u1" "u1").1.bareJid =
      (interleavedResolveTwice ⟨[], 0⟩ "@u1:example.org" "u1" "u1").2.1.bareJid ∧
    (interleavedResolveTwice ⟨[], 0⟩ "@u1:example.org" "u1" "u1").1.instanceId ≠
      (interleavedResolveTwice ⟨[], 0⟩ "@u1:example.org" "u1" "u1").2.1.instanceId ∧
    (interleavedResolveTwice ⟨[], 0⟩ "@u1:example.org" "u1" "u1").1 ∉
      (interleavedResolveTwice ⟨[], 0⟩ "@u1:example.org" "u1" "u1").2.2.contacts :=
  ⟨rfl, by decide, by decide⟩
